import Mathlib

/-!
# Verification of the `generic-simd` slice / overlapping-window module

Shallow embedding of `src/generic-simd/src/slice.rs` and
`src/generic-simd/src/vector/pointer.rs`.

Modelling choices:
* A scalar slice (and the memory it borrows) is a `List α`.
* A vector of width `w` is a `List α` of length `w`; the lane contents are
  what the claims are about, so the register representation is elided.
* Capability tokens are zero-sized proofs with no runtime content; they are
  dropped from the embedding (every token argument in the source is unused
  by the control flow of this module).
* A Rust panic (a failed `assert!`) is modelled by `Option.none` from the
  constructor that panics.
* A raw pointer into a borrowed slice is modelled by its offset (a `Nat`)
  into the backing list.

The `Vector` trait itself (`zeroed`, `read_ptr`, `write_ptr`, `read`,
`read_unchecked`) lives in the crate's `vector` module, which is not among
the provided sources; those primitives are modelled from the spec, as marked
on each definition. Everything else is translated from the source files.
-/

namespace GenericSimd

variable {α : Type}

/-- Modelled from the spec: `Vector::zeroed` (crate `vector` module, not in
the provided sources) — "construct-zeroed": a vector whose `w` lanes are all
zero. -/
def zeroed (α : Type) [Zero α] (w : Nat) : List α := List.replicate w 0

/-- Modelled from the spec: `Vector::read_ptr` (crate `vector` module, not in
the provided sources) — read `w` scalars starting at address `off` into a
vector, with no alignment requirement. -/
def read_ptr (mem : List α) (off w : Nat) : List α := (mem.drop off).take w

/-- Modelled from the spec: `Vector::write_ptr` (crate `vector` module, not
in the provided sources) — write the vector `v` to address `off`, replacing
the `v.length` scalars starting there. -/
def write_ptr (mem : List α) (off : Nat) (v : List α) : List α :=
  mem.take off ++ v ++ mem.drop (off + v.length)

/-- `<*const T as PointerSized>::vector_read` (`vector/pointer.rs`):
delegates to `Vector::read_ptr` at the pointer's address. -/
def vector_read (mem : List α) (off w : Nat) : List α := read_ptr mem off w

/-- Modelled from the spec: `Vector::read_unchecked` for slices (crate
`vector` module, not in the provided sources) — reads `w` scalars starting
at slice offset 0, bypassing length validation. `<[T] as
Slice>::read_unchecked` (`slice.rs`) delegates to it. -/
def Slice.read_unchecked (w : Nat) (s : List α) : List α := s.take w

/-- Modelled from the spec: `Vector::read` for slices (crate `vector`
module, not in the provided sources) — validates `slice.length ≥ w`, halting
(`none`) if violated, and otherwise reads the same vector as the unchecked
read. `<[T] as Slice>::read` (`slice.rs`) delegates to it. -/
def Slice.read (w : Nat) (s : List α) : Option (List α) :=
  if w ≤ s.length then some (Slice.read_unchecked w s) else none

/-- Splits a list into consecutive chunks of exactly `w` elements, stopping
when fewer than `w` elements remain (those form the remainder, not a chunk).
Used to express reinterpreting a scalar run as a slice of vectors. -/
def chunks (w : Nat) (l : List α) : List (List α) :=
  if h : 0 < w ∧ w ≤ l.length then
    l.take w :: chunks w (l.drop w)
  else []
termination_by l.length
decreasing_by
  simp only [List.length_drop]
  omega

/-- Modelled from the spec: the contract of Rust `slice::align_to` (standard
library, external to the repository), which `<[T] as Slice>::align`
(`slice.rs`) calls. The split point depends on the run-time address of the
slice, so the embedding takes the chosen head length `p` as a parameter and
the properties are proved for every `p`: head = `s.take p`, middle = the
maximal run of `w`-element chunks of the rest, tail = the remainder. -/
def align_to (w p : Nat) (s : List α) : List α × List (List α) × List α :=
  (s.take p, chunks w (s.drop p),
    (s.drop p).drop ((chunks w (s.drop p)).length * w))

/-- `<[T] as Slice>::align` (`slice.rs`): `unsafe { self.align_to() }`. -/
def Slice.align (w p : Nat) (s : List α) : List α × List (List α) × List α :=
  align_to w p s

/-- `<[T] as Slice>::align_mut` (`slice.rs`): `unsafe { self.align_to_mut() }`,
the same partition with mutable sub-slices. -/
def Slice.align_mut (w p : Nat) (s : List α) : List α × List (List α) × List α :=
  align_to w p s

/-- `RefMut` (`slice.rs`): the scoped write-back guard. `source` is the raw
write-back pointer (as an offset into the backing memory), `temp` the
temporary vector the guard owns. -/
structure RefMut (α : Type) where
  source : Nat
  temp : List α
deriving DecidableEq, Repr

/-- `RefMut::new` (`slice.rs`): stores the source pointer and initialises
`temp` with `V::zeroed(token)`. `w` is the width of the vector type `V`. -/
def RefMut.new (α : Type) [Zero α] (w source : Nat) : RefMut α :=
  { source := source, temp := zeroed α w }

/-- `Deref for RefMut` (`slice.rs`): yields the guard's temporary vector. -/
def RefMut.deref (r : RefMut α) : List α := r.temp

/-- `DerefMut for RefMut` (`slice.rs`): mutable access to `temp`; a whole
vector assignment through it replaces `temp` by `v`. -/
def RefMut.set (r : RefMut α) (v : List α) : RefMut α := { r with temp := v }

/-- `Drop for RefMut` (`slice.rs`): on scope exit, `self.temp.write_ptr(self.source)`
flushes the temporary vector back to the source address. Returns the memory
after the write-back. -/
def RefMut.drop (mem : List α) (r : RefMut α) : List α :=
  write_ptr mem r.source r.temp

/-- `Overlapping` (`slice.rs`): a sliding-window view borrowing a scalar
slice; `width` is the width of the phantom vector type `V`. -/
structure Overlapping (α : Type) where
  slice : List α
  width : Nat
deriving DecidableEq, Repr

/-- `Overlapping::new` (`slice.rs`): asserts `slice.len() >= V::width()`
("slice must be at least as wide as the vector"), panicking (`none`)
otherwise. -/
def Overlapping.new (w : Nat) (s : List α) : Option (Overlapping α) :=
  if w ≤ s.length then some { slice := s, width := w } else none

/-- `Overlapping::len` (`slice.rs`): `self.slice.len() - V::width() + 1`. -/
def Overlapping.len (o : Overlapping α) : Nat :=
  o.slice.length - o.width + 1

/-- `Overlapping::get_unchecked` (`slice.rs`):
`V::read_ptr(token, self.slice.as_ptr().add(index))`. -/
def Overlapping.get_unchecked (o : Overlapping α) (index : Nat) : List α :=
  read_ptr o.slice index o.width

/-- `Overlapping::get` (`slice.rs`): bounds-checked window read. -/
def Overlapping.get (o : Overlapping α) (index : Nat) : Option (List α) :=
  if index < o.len then some (o.get_unchecked index) else none

/-- `OverlappingMut` (`slice.rs`): the mutable sliding-window view. -/
structure OverlappingMut (α : Type) where
  slice : List α
  width : Nat
deriving DecidableEq, Repr

/-- `OverlappingMut::new` (`slice.rs`): same assertion as `Overlapping::new`. -/
def OverlappingMut.new (w : Nat) (s : List α) : Option (OverlappingMut α) :=
  if w ≤ s.length then some { slice := s, width := w } else none

/-- `OverlappingMut::len` (`slice.rs`): `self.slice.len() - V::width() + 1`. -/
def OverlappingMut.len (o : OverlappingMut α) : Nat :=
  o.slice.length - o.width + 1

/-- `OverlappingMut::get_unchecked` (`slice.rs`): unchecked window read. -/
def OverlappingMut.get_unchecked (o : OverlappingMut α) (index : Nat) : List α :=
  read_ptr o.slice index o.width

/-- `OverlappingMut::get` (`slice.rs`): bounds-checked window read. -/
def OverlappingMut.get (o : OverlappingMut α) (index : Nat) : Option (List α) :=
  if index < o.len then some (o.get_unchecked index) else none

/-- `OverlappingMut::get_unchecked_mut` (`slice.rs`):
`RefMut::new(token, self.slice.as_mut_ptr().add(index))`. -/
def OverlappingMut.get_unchecked_mut [Zero α] (o : OverlappingMut α)
    (index : Nat) : RefMut α :=
  RefMut.new α o.width index

/-- `OverlappingMut::get_mut` (`slice.rs`): bounds-checked guard access. -/
def OverlappingMut.get_mut [Zero α] (o : OverlappingMut α) (index : Nat) :
    Option (RefMut α) :=
  if index < o.len then some (o.get_unchecked_mut index) else none

/-- `<[T] as Slice>::overlapping` (`slice.rs`): `Overlapping::new(token, self)`. -/
def Slice.overlapping (w : Nat) (s : List α) : Option (Overlapping α) :=
  Overlapping.new w s

/-- `<[T] as Slice>::overlapping_mut` (`slice.rs`): `OverlappingMut::new(token, self)`. -/
def Slice.overlapping_mut (w : Nat) (s : List α) : Option (OverlappingMut α) :=
  OverlappingMut.new w s

/-- One interaction with a live (Armed) write-back guard: a read through
`Deref`, or a whole-vector write through `DerefMut`. -/
inductive GuardOp (α : Type) where
  | read : GuardOp α
  | write (v : List α) : GuardOp α

/-- Instrumented state of a guard's scope: the backing memory, the guard,
and a counter of write-backs performed on that memory. -/
structure GuardScope (α : Type) where
  mem : List α
  guard : RefMut α
  flushes : Nat

/-- Effect of one Armed-phase interaction: `Deref` reads `temp` only,
`DerefMut` writes `temp` only; neither touches `mem`. -/
def stepGuard (st : GuardScope α) : GuardOp α → GuardScope α
  | .read => st
  | .write v => { st with guard := st.guard.set v }

/-- Run a sequence of Armed-phase interactions. -/
def runGuard (st : GuardScope α) (ops : List (GuardOp α)) : GuardScope α :=
  ops.foldl stepGuard st

/-- Scope exit: `Drop for RefMut` runs, flushing `temp` to `source` — the
single transition from Armed to Flushed. -/
def exitScope (st : GuardScope α) : GuardScope α :=
  { st with mem := st.guard.drop st.mem, flushes := st.flushes + 1 }

/-- The read paths of the module, all over the same backing memory: the
checked slice read, the raw-pointer read (`vector_read`), and the
checked/unchecked overlapping-window reads. -/
inductive ReadPath where
  | sliceRead (w : Nat)
  | ptrRead (off w : Nat)
  | overGet (w index : Nat)
  | overGetUnchecked (w index : Nat)

/-- Execute a read path against a memory; `none` models a panic
(`Overlapping::new` on a short slice) and reads nothing. -/
def execRead (p : ReadPath) (m : List α) : Option (List α) :=
  match p with
  | .sliceRead w => Slice.read w m
  | .ptrRead off w => some (vector_read m off w)
  | .overGet w index => (Overlapping.new w m).bind fun o => o.get index
  | .overGetUnchecked w index =>
      (Overlapping.new w m).map fun o => o.get_unchecked index

/-! ## Helper lemmas -/

theorem new_inv {s : List α} {w : Nat} {o : Overlapping α}
    (ho : Overlapping.new w s = some o) :
    w ≤ s.length ∧ o = { slice := s, width := w } := by
  unfold Overlapping.new at ho
  split at ho
  · exact ⟨by assumption, (Option.some.inj ho).symm⟩
  · cases ho

theorem newMut_inv {s : List α} {w : Nat} {o : OverlappingMut α}
    (ho : OverlappingMut.new w s = some o) :
    w ≤ s.length ∧ o = { slice := s, width := w } := by
  unfold OverlappingMut.new at ho
  split at ho
  · exact ⟨by assumption, (Option.some.inj ho).symm⟩
  · cases ho

/-! ## C3 -/

/-- C3: for a view built by `Overlapping::new` over `s` with width `w`,
`get i` returns `some` of the window `s[i..i+w]` whenever `i < len()`, and
`none` (no panic) whenever `i ≥ len()`. -/
theorem overlapping_get_window (s : List Int) (w : Nat) (o : Overlapping Int)
    (ho : Overlapping.new w s = some o) (i : Nat) :
    (i < o.len → o.get i = some ((s.drop i).take w)) ∧
    (o.len ≤ i → o.get i = none) := by
  obtain ⟨hw, rfl⟩ := new_inv ho
  constructor
  · intro hi
    simp [Overlapping.get, hi, Overlapping.get_unchecked, read_ptr]
  · intro hi
    simp only [Overlapping.get]
    rw [if_neg (Nat.not_lt.mpr hi)]

/-- Witness for C3 at the spec's scenario: `[10,20,30,40]`, width 2. -/
theorem overlapping_get_window_witness :
    (Overlapping.mk ([10,20,30,40] : List Int) 2).get 0 = some [10,20] ∧
    (Overlapping.mk ([10,20,30,40] : List Int) 2).get 1 = some [20,30] ∧
    (Overlapping.mk ([10,20,30,40] : List Int) 2).get 2 = some [30,40] ∧
    (Overlapping.mk ([10,20,30,40] : List Int) 2).get 3 = none := by
  have h := fun i => overlapping_get_window [10,20,30,40] 2
    (Overlapping.mk [10,20,30,40] 2) (by decide) i
  refine ⟨?_, ?_, ?_, (h 3).2 (by decide)⟩
  · rw [(h 0).1 (by decide)]; decide
  · rw [(h 1).1 (by decide)]; decide
  · rw [(h 2).1 (by decide)]; decide

/-! ## C4 -/

/-- C4: both overlapping views over a slice of length ≥ w report
`len() = slice.length - w + 1` window positions. -/
theorem overlapping_len_eq (s : List Int) (w : Nat)
    (o : Overlapping Int) (om : OverlappingMut Int)
    (ho : Overlapping.new w s = some o) (hom : OverlappingMut.new w s = some om) :
    o.len = s.length - w + 1 ∧ om.len = s.length - w + 1 := by
  obtain ⟨hw, rfl⟩ := new_inv ho
  obtain ⟨hw2, rfl⟩ := newMut_inv hom
  exact ⟨rfl, rfl⟩

/-- Witness for C4: `[10,20,30,40]`, width 2, has 3 window positions. -/
theorem overlapping_len_eq_witness :
    (Overlapping.mk ([10,20,30,40] : List Int) 2).len = 3 ∧
    (OverlappingMut.mk ([10,20,30,40] : List Int) 2).len = 3 := by
  have h := overlapping_len_eq [10,20,30,40] 2
    (Overlapping.mk [10,20,30,40] 2) (OverlappingMut.mk [10,20,30,40] 2)
    (by decide) (by decide)
  exact ⟨by rw [h.1]; decide, by rw [h.2]; decide⟩

/-! ## C6 -/

/-- C6: constructing an overlapping view (directly or through the slice
extension methods) panics (`none`) exactly when the slice is shorter than
the width, and succeeds otherwise. -/
theorem overlapping_new_halting (s : List Int) (w : Nat) :
    (s.length < w →
      Overlapping.new w s = none ∧ OverlappingMut.new w s = none ∧
      Slice.overlapping w s = (none : Option (Overlapping Int)) ∧
      Slice.overlapping_mut w s = (none : Option (OverlappingMut Int))) ∧
    (w ≤ s.length →
      (Overlapping.new w s).isSome = true ∧
      (OverlappingMut.new w s).isSome = true ∧
      (Slice.overlapping w s : Option (Overlapping Int)).isSome = true ∧
      (Slice.overlapping_mut w s : Option (OverlappingMut Int)).isSome = true) := by
  constructor
  · intro h
    have hn : ¬ w ≤ s.length := Nat.not_le.mpr h
    refine ⟨?_, ?_, ?_, ?_⟩ <;>
      simp [Overlapping.new, OverlappingMut.new, Slice.overlapping,
        Slice.overlapping_mut, hn]
  · intro h
    refine ⟨?_, ?_, ?_, ?_⟩ <;>
      simp [Overlapping.new, OverlappingMut.new, Slice.overlapping,
        Slice.overlapping_mut, h]

/-- Witness for C6: width 2 over a length-1 slice panics; over a length-2
slice it succeeds. -/
theorem overlapping_new_halting_witness :
    Overlapping.new 2 ([1] : List Int) = none ∧
    (Overlapping.new 2 ([1, 2] : List Int)).isSome = true :=
  ⟨((overlapping_new_halting [1] 2).1 (by decide)).1,
   ((overlapping_new_halting [1, 2] 2).2 (by decide)).1⟩

/-! ## C8 -/

/-- C8: when the length precondition `w ≤ s.length` holds, the checked slice
read returns exactly the vector produced by the unchecked slice read. -/
theorem read_eq_read_unchecked (s : List Int) (w : Nat) (h : w ≤ s.length) :
    Slice.read w s = some (Slice.read_unchecked w s) := by
  simp [Slice.read, h]

/-- Witness for C8 at `s = [5,6,7]`, width 2. -/
theorem read_eq_read_unchecked_witness :
    (2 : Nat) ≤ ([5, 6, 7] : List Int).length ∧
    Slice.read 2 ([5, 6, 7] : List Int) = some (Slice.read_unchecked 2 [5, 6, 7]) :=
  ⟨by decide, read_eq_read_unchecked [5, 6, 7] 2 (by decide)⟩

/-! ## C1 -/

/-- C1: evaluation of the source at the scenario `s = [1,1,1,1]`, width 2,
index 1. `RefMut::new` initialises the guard's vector with
`V::zeroed(token)` instead of loading from the source pointer, so the guard
initially holds `[0,0]`, not the window `[1,1]`; dropping the guard without
mutating it overwrites the window with zeros, yielding `[1,0,0,1]` instead
of leaving the memory unchanged. -/
theorem refMut_guard_zeroed_eval :
    ((OverlappingMut.new 2 ([1, 1, 1, 1] : List Int)).bind fun o => o.get_mut 1) =
      some { source := 1, temp := [0, 0] } ∧
    RefMut.deref { source := 1, temp := ([0, 0] : List Int) } = [0, 0] ∧
    ([0, 0] : List Int) ≠ [1, 1] ∧
    RefMut.drop ([1, 1, 1, 1] : List Int) { source := 1, temp := [0, 0] } =
      [1, 0, 0, 1] ∧
    ([1, 0, 0, 1] : List Int) ≠ [1, 1, 1, 1] := by
  decide

/-! ## C2 -/

/-- C2: obtaining a guard via `get_mut(i)`, assigning the whole vector `v`
through it, and letting it drop replaces exactly the window `s[i..i+w]` by
`v` and leaves every element outside `[i, i+w)` unchanged. -/
theorem get_mut_set_drop (s v : List Int) (w i : Nat) (o : OverlappingMut Int)
    (ho : OverlappingMut.new w s = some o) (hi : i < o.len) (hv : v.length = w)
    (g : RefMut Int) (hg : o.get_mut i = some g) :
    RefMut.drop s (g.set v) = s.take i ++ v ++ s.drop (i + w) ∧
    (RefMut.drop s (g.set v)).take i = s.take i ∧
    ((RefMut.drop s (g.set v)).drop i).take w = v ∧
    (RefMut.drop s (g.set v)).drop (i + w) = s.drop (i + w) ∧
    (RefMut.drop s (g.set v)).length = s.length := by
  obtain ⟨hw, rfl⟩ := newMut_inv ho
  have hiw : i + w ≤ s.length := by
    simp only [OverlappingMut.len] at hi
    omega
  simp only [OverlappingMut.get_mut, if_pos hi, OverlappingMut.get_unchecked_mut,
    RefMut.new, Option.some.injEq] at hg
  have hE : RefMut.drop s (g.set v) = s.take i ++ v ++ s.drop (i + w) := by
    rw [← hg]
    simp [RefMut.set, RefMut.drop, write_ptr, hv]
  have hti : (s.take i).length = i := by
    simp only [List.length_take]
    omega
  have htv : (s.take i ++ v).length = i + w := by
    simp only [List.length_append, hti, hv]
  refine ⟨hE, ?_, ?_, ?_, ?_⟩
  · rw [hE, List.append_assoc]
    exact List.take_left' hti
  · rw [hE, List.append_assoc, List.drop_left' hti]
    exact List.take_left' hv
  · rw [hE]
    exact List.drop_left' htv
  · rw [hE]
    simp only [List.length_append, List.length_take, List.length_drop, hv]
    omega

/-- Witness for C2 at the spec's scenario: `[1,1,1,1]`, width 2,
`get_mut(1)` set to `[9,9]` and dropped gives `[1,9,9,1]`. -/
theorem get_mut_set_drop_witness :
    RefMut.drop ([1, 1, 1, 1] : List Int)
      (RefMut.set { source := 1, temp := [0, 0] } [9, 9]) = [1, 9, 9, 1] := by
  have h := get_mut_set_drop [1, 1, 1, 1] [9, 9] 2 1
    (OverlappingMut.mk [1, 1, 1, 1] 2) (by decide) (by decide) (by decide)
    { source := 1, temp := [0, 0] } (by decide)
  rw [h.1]
  decide

/-! ## C5 -/

theorem chunks_spec (w : Nat) :
    ∀ n, ∀ l : List α, l.length ≤ n →
      (chunks w l).flatten ++ l.drop ((chunks w l).length * w) = l ∧
      ∀ c ∈ chunks w l, c.length = w := by
  intro n
  induction n with
  | zero =>
    intro l hl
    have hnil : l = [] := List.eq_nil_of_length_eq_zero (Nat.le_zero.mp hl)
    subst hnil
    rw [chunks, dif_neg (by rintro ⟨h1, h2⟩; simp at h2; omega)]
    simp
  | succ n ih =>
    intro l hl
    rw [chunks]
    split
    case isTrue h =>
      have hd : (l.drop w).length ≤ n := by
        simp only [List.length_drop]
        omega
      obtain ⟨ih1, ih2⟩ := ih (l.drop w) hd
      constructor
      · have harith : ((chunks w (l.drop w)).length + 1) * w =
            w + (chunks w (l.drop w)).length * w := by ring
        calc (l.take w :: chunks w (l.drop w)).flatten ++
              l.drop ((l.take w :: chunks w (l.drop w)).length * w)
            = l.take w ++ ((chunks w (l.drop w)).flatten ++
              (l.drop w).drop ((chunks w (l.drop w)).length * w)) := by
              rw [List.flatten_cons, List.append_assoc, List.length_cons, harith,
                ← List.drop_drop]
          _ = l.take w ++ l.drop w := by rw [ih1]
          _ = l := List.take_append_drop w l
      · intro c hc
        rcases List.mem_cons.mp hc with hc | hc
        · subst hc
          simp only [List.length_take]
          omega
        · exact ih2 c hc
    case isFalse h =>
      simp

theorem flatten_length_of_uniform (w : Nat) :
    ∀ L : List (List α), (∀ c ∈ L, c.length = w) →
      L.flatten.length = L.length * w := by
  intro L
  induction L with
  | nil => simp
  | cons c L ih =>
    intro h
    simp only [List.flatten_cons, List.length_append, List.length_cons]
    rw [ih (fun d hd => h d (List.mem_cons_of_mem _ hd)),
      h c (List.mem_cons_self _ _)]
    ring

/-- C5: for every width `w > 0`, every head length `p` (abstracting the
run-time address alignment) and every slice `s`, `align` produces
`(head, body, tail)` with `head.length + body.length * w + tail.length =
s.length`, whose concatenation (body reinterpreted as scalars) is exactly
`s`; every body vector has `w` lanes and `align_mut` produces the same
partition. -/
theorem align_partitions_and_reconstructs (w p : Nat) (hw : 0 < w)
    (s : List Int) :
    (Slice.align w p s).1.length + (Slice.align w p s).2.1.length * w +
        (Slice.align w p s).2.2.length = s.length ∧
    (Slice.align w p s).1 ++ (Slice.align w p s).2.1.flatten ++
        (Slice.align w p s).2.2 = s ∧
    (∀ c ∈ (Slice.align w p s).2.1, c.length = w) ∧
    Slice.align_mut w p s = Slice.align w p s := by
  obtain ⟨hrec, hlens⟩ := chunks_spec w (s.drop p).length (s.drop p) le_rfl
  have hrecon : (Slice.align w p s).1 ++ (Slice.align w p s).2.1.flatten ++
      (Slice.align w p s).2.2 = s := by
    simp only [Slice.align, align_to]
    rw [List.append_assoc, hrec, List.take_append_drop]
  refine ⟨?_, hrecon, ?_, rfl⟩
  · have hfl := flatten_length_of_uniform w (chunks w (s.drop p)) hlens
    have hlen := congrArg List.length hrec
    simp only [Slice.align, align_to, List.length_append, List.length_take,
      List.length_drop] at hlen ⊢
    rw [hfl] at hlen
    generalize (chunks w (s.drop p)).length * w = K at hlen ⊢
    omega
  · simp only [Slice.align, align_to]
    exact hlens

/-- Witness for C5 at the spec's scenario: `[1,2,3,4,5]`, width 4, with an
alignment offset putting one element in the head. -/
theorem align_partitions_witness :
    0 < 4 ∧
    (Slice.align 4 1 ([1, 2, 3, 4, 5] : List Int)).1 ++
      (Slice.align 4 1 ([1, 2, 3, 4, 5] : List Int)).2.1.flatten ++
      (Slice.align 4 1 ([1, 2, 3, 4, 5] : List Int)).2.2 = [1, 2, 3, 4, 5] :=
  ⟨by decide,
   (align_partitions_and_reconstructs 4 1 (by decide) [1, 2, 3, 4, 5]).2.1⟩

/-! ## C7 -/

theorem runGuard_preserves (ops : List (GuardOp α)) :
    ∀ st : GuardScope α,
      (runGuard st ops).mem = st.mem ∧ (runGuard st ops).flushes = st.flushes := by
  induction ops with
  | nil => intro st; exact ⟨rfl, rfl⟩
  | cons op ops ih =>
    intro st
    have h := ih (stepGuard st op)
    have hm : (stepGuard st op).mem = st.mem := by cases op <;> rfl
    have hf : (stepGuard st op).flushes = st.flushes := by cases op <;> rfl
    constructor
    · show (runGuard (stepGuard st op) ops).mem = st.mem
      rw [h.1, hm]
    · show (runGuard (stepGuard st op) ops).flushes = st.flushes
      rw [h.2, hf]

theorem runGuard_source (ops : List (GuardOp α)) :
    ∀ st : GuardScope α, (runGuard st ops).guard.source = st.guard.source := by
  induction ops with
  | nil => intro st; rfl
  | cons op ops ih =>
    intro st
    have hs : (stepGuard st op).guard.source = st.guard.source := by
      cases op <;> rfl
    show (runGuard (stepGuard st op) ops).guard.source = st.guard.source
    rw [ih (stepGuard st op), hs]

/-- C7: through any sequence of Armed-phase interactions (`Deref` reads and
`DerefMut` writes) the backing memory is untouched and no write-back has
occurred; scope exit performs exactly one write-back, to the guard's
original source address, of the guard's final vector. -/
theorem guard_flushes_exactly_once (mem : List Int) (g : RefMut Int)
    (ops : List (GuardOp Int)) :
    (runGuard { mem := mem, guard := g, flushes := 0 } ops).mem = mem ∧
    (runGuard { mem := mem, guard := g, flushes := 0 } ops).flushes = 0 ∧
    (exitScope (runGuard { mem := mem, guard := g, flushes := 0 } ops)).flushes = 1 ∧
    (runGuard { mem := mem, guard := g, flushes := 0 } ops).guard.source = g.source ∧
    (exitScope (runGuard { mem := mem, guard := g, flushes := 0 } ops)).mem =
      write_ptr mem g.source
        (runGuard { mem := mem, guard := g, flushes := 0 } ops).guard.temp := by
  obtain ⟨hm, hf⟩ := runGuard_preserves ops { mem := mem, guard := g, flushes := 0 }
  have hs := runGuard_source ops { mem := mem, guard := g, flushes := 0 }
  refine ⟨hm, hf, ?_, hs, ?_⟩
  · simp only [exitScope, hf]
  · simp only [exitScope, RefMut.drop, hm, hs]

/-! ## C9 -/

/-- C9: every read path is a pure, deterministic function of the memory
contents — two reads of the same memory through the same path yield the
same vector — and all read paths over the same window agree with the
pointer read of that window (`read_ptr`), so reads through different paths
of the same memory are bitwise identical. -/
theorem read_paths_deterministic (m : List Int) (p : ReadPath)
    (v₁ v₂ : List Int) (h₁ : execRead p m = some v₁) (h₂ : execRead p m = some v₂)
    (w i : Nat) (o : Overlapping Int) (ho : Overlapping.new w m = some o)
    (hi : i < o.len) :
    v₁ = v₂ ∧
    o.get i = some (read_ptr m i w) ∧
    o.get_unchecked i = read_ptr m i w ∧
    execRead (.overGet w i) m = execRead (.ptrRead i w) m ∧
    execRead (.sliceRead w) m = some (read_ptr m 0 w) := by
  have hv : v₁ = v₂ := Option.some.inj (h₁.symm.trans h₂)
  have hnew := ho
  obtain ⟨hw, rfl⟩ := new_inv ho
  have hget : Overlapping.get { slice := m, width := w } i =
      some (read_ptr m i w) := by
    simp [Overlapping.get, hi, Overlapping.get_unchecked]
  refine ⟨hv, hget, rfl, ?_, ?_⟩
  · simp [execRead, hnew, hget, vector_read]
  · simp only [execRead, Slice.read, if_pos hw, Slice.read_unchecked, read_ptr,
      List.drop_zero]

/-- Witness for C9: reading `[10,20,30]` through the checked slice path
yields the same vector as the pointer read at offset 0. -/
theorem read_paths_deterministic_witness :
    execRead (.sliceRead 2) ([10, 20, 30] : List Int) =
      some (read_ptr [10, 20, 30] 0 2) :=
  (read_paths_deterministic [10, 20, 30] (.ptrRead 0 2) [10, 20] [10, 20]
    (by decide) (by decide) 2 0 (Overlapping.mk [10, 20, 30] 2)
    (by decide) (by decide)).2.2.2.2

/-! ## C10 -/

/-- C10: every view obtained through `new` satisfies `width ≤ slice.length`
for its lifetime (the fields are never mutated afterwards), so
`len() = slice.length - width + 1` is an exact subtraction
(`len + width = slice.length + 1`), and for every `index < len()` the
window `[index, index + width)` read by `get_unchecked` (or written back by
the guard of `get_unchecked_mut`, whose source offset is `index`) lies
entirely within the borrowed slice. -/
theorem overlapping_views_in_bounds (s : List Int) (w : Nat)
    (o : Overlapping Int) (om : OverlappingMut Int)
    (ho : Overlapping.new w s = some o) (hom : OverlappingMut.new w s = some om) :
    o.width ≤ o.slice.length ∧
    o.len + o.width = o.slice.length + 1 ∧
    (∀ i, i < o.len →
      i + o.width ≤ o.slice.length ∧ (o.get_unchecked i).length = o.width) ∧
    om.width ≤ om.slice.length ∧
    om.len + om.width = om.slice.length + 1 ∧
    (∀ i, i < om.len →
      i + om.width ≤ om.slice.length ∧
      (om.get_unchecked i).length = om.width ∧
      (om.get_unchecked_mut i).source = i ∧
      (om.get_unchecked_mut i).source + om.width ≤ om.slice.length) := by
  obtain ⟨hw, rfl⟩ := new_inv ho
  obtain ⟨hw2, rfl⟩ := newMut_inv hom
  refine ⟨hw, ?_, ?_, hw2, ?_, ?_⟩
  · simp only [Overlapping.len]
    omega
  · intro i hi
    simp only [Overlapping.len] at hi
    refine ⟨?_, ?_⟩
    · show i + w ≤ s.length
      omega
    · show ((s.drop i).take w).length = w
      simp only [List.length_take, List.length_drop]
      omega
  · simp only [OverlappingMut.len]
    omega
  · intro i hi
    simp only [OverlappingMut.len] at hi
    refine ⟨?_, ?_, rfl, ?_⟩
    · show i + w ≤ s.length
      omega
    · show ((s.drop i).take w).length = w
      simp only [List.length_take, List.length_drop]
      omega
    · show i + w ≤ s.length
      omega

/-- Witness for C10: over `[10,20,30,40]` with width 2, the unchecked read
of window 1 has exactly `width` lanes. -/
theorem overlapping_views_in_bounds_witness :
    ((OverlappingMut.mk ([10, 20, 30, 40] : List Int) 2).get_unchecked 1).length =
      (OverlappingMut.mk ([10, 20, 30, 40] : List Int) 2).width := by
  have h := overlapping_views_in_bounds [10, 20, 30, 40] 2
    (Overlapping.mk [10, 20, 30, 40] 2) (OverlappingMut.mk [10, 20, 30, 40] 2)
    (by decide) (by decide)
  exact (h.2.2.2.2.2 1 (by decide)).2.1

end GenericSimd
